import Mathlib

/-!
Dialogue bindings and actor skeleton helpers.

A shallow embedding of `apps/openmw/mwlua/dialoguebindings.cpp` and
`apps/openmw/mwrender/actorutil.cpp`, followed by theorems about it.

Conventions of the embedding:

* a pointer result (`const ESM::Dialogue*`, `const ESM::DialInfo*`) and a
  `sol::optional` are an `Option`; `nullptr` and `sol::nullopt` are `none`;
* `size_t` is a natural number below `2 ^ 64`, `difference_type` is an `Int`, and the
  implicit conversion of a `size_t` to `difference_type` is `toDifferenceType`;
* a store iterator is the position it points at in the store's record sequence, the
  end iterator being the length of that sequence; reading a position outside the
  sequence, undefined in the source, is `none`;
* the strings `addSuffixBeforeExtension` works on are lists of characters; the strings
  the bindings only pass on are `String`s;
* what the source reads from elsewhere in the repository (`Settings::models()`, the
  underlying store's `search`, `VFS::Path::pathEqual`, `correctSoundPath`) is a
  parameter.
-/

namespace OpenMW

/-! ## Data model -/

/-- The values of `ESM::Dialogue::Type`. -/
inductive DialogueType where
  | Topic
  | Voice
  | Greeting
  | Persuasion
  | Journal
  | Unknown
  deriving DecidableEq, Repr

/-- The values of `ESM::DialInfo::QuestStatus`. -/
inductive QuestStatus where
  | QS_None
  | QS_Name
  | QS_Finished
  | QS_Restart
  deriving DecidableEq, Repr

/-- What this code observes of an `ESM::RefId`: the result of `empty()` and the result
of `serializeText()`. -/
structure RefId where
  empty : Bool
  serializeText : String
  deriving DecidableEq, Repr

/-- The fields of `ESM::DialInfo::DATAstruct` read by the bindings. -/
structure DATAstruct where
  mType : DialogueType
  mDisposition : Int
  mJournalIndex : Int
  mRank : Int
  mGender : Int
  mPCrank : Int
  deriving DecidableEq, Repr

/-- The fields of `ESM::DialInfo` read by the bindings. -/
structure DialInfo where
  mData : DATAstruct
  mId : RefId
  mActor : RefId
  mRace : RefId
  mClass : RefId
  mFaction : RefId
  mPcFaction : RefId
  mCell : RefId
  mSound : String
  mResponse : String
  mResultScript : String
  mFactionLess : Bool
  mQuestStatus : QuestStatus
  deriving DecidableEq, Repr

/-- The fields of `ESM::Dialogue` read by the bindings; `mInfo` is the record's
`InfoContainer` (a `std::list<DialInfo>`) in list order. -/
structure Dialogue where
  mId : RefId
  mStringId : String
  mType : DialogueType
  mInfo : List DialInfo
  deriving DecidableEq, Repr

/-- What this code uses of `MWWorld::Store<ESM::Dialogue>`: the records in iteration
order (`begin()` to `end()`) and the lookup `search(id)`. -/
structure Store where
  records : List Dialogue
  search : RefId → Option Dialogue

/-! ## Machine integers -/

/-- Conversion of a `size_t` to the signed 64-bit `difference_type`: the value is kept
modulo `2 ^ 64` and read in two's complement. -/
def toDifferenceType (n : Nat) : Int :=
  if n % 2 ^ 64 < 2 ^ 63 then ((n % 2 ^ 64 : Nat) : Int) else ((n % 2 ^ 64 : Nat) : Int) - 2 ^ 64

/-! ## `FilteredDialogueStore<filter>` -/

/-- Embedding of `FilteredDialogueStore::foundDialogueFilteredOut`. -/
def foundDialogueFilteredOut (filter : DialogueType) (possibleResult : Option Dialogue) :
    Option Dialogue :=
  match possibleResult with
  | some d => if d.mType = filter then some d else none
  | none => none

/-- Embedding of `FilteredDialogueIterator`: the decorated iterator `mIter` and the end
`mEndIter`, each a position in the store's record sequence. -/
structure FilteredDialogueIterator where
  mIter : Nat
  mEndIter : Nat
  deriving DecidableEq, Repr

namespace FilteredDialogueIterator

/-- The loop `do { ++mIter; } while (mIter != mEndIter && mIter->mType != filter);` of
`operator++`, started with the decorated iterator at `mIter`; the result is the final
position. Reading a position outside the store (undefined in the source, and not
reached from `begin()`) ends the loop. -/
def doWhile (filter : DialogueType) (dialogues : List Dialogue) (mEndIter : Nat) (mIter : Nat) :
    Nat :=
  if mIter + 1 ≠ mEndIter then
    match h : dialogues[mIter + 1]? with
    | some d =>
      if d.mType ≠ filter then doWhile filter dialogues mEndIter (mIter + 1) else mIter + 1
    | none => mIter + 1
  else mIter + 1
termination_by dialogues.length - mIter
decreasing_by
  have := (List.getElem?_eq_some_iff.mp h).1
  omega

/-- Embedding of `FilteredDialogueIterator::operator++()`. -/
def inc (filter : DialogueType) (dialogues : List Dialogue) (it : FilteredDialogueIterator) :
    FilteredDialogueIterator :=
  if it.mIter = it.mEndIter then it
  else { it with mIter := doWhile filter dialogues it.mEndIter it.mIter }

/-- Embedding of `FilteredDialogueIterator::operator+=(difference_type advance)`. -/
def addAssign (filter : DialogueType) (dialogues : List Dialogue) (it : FilteredDialogueIterator)
    (advance : Int) : FilteredDialogueIterator :=
  if h : advance > 0 ∧ it.mIter ≠ it.mEndIter then
    addAssign filter dialogues (inc filter dialogues it) (advance - 1)
  else it
termination_by advance.toNat
decreasing_by omega

/-- Embedding of `FilteredDialogueIterator::operator==`. -/
def eq (it x : FilteredDialogueIterator) : Bool := it.mIter = x.mIter

/-- Embedding of `FilteredDialogueIterator::operator*` and `operator->`: the record at
`mIter`, if `mIter` is a position of the store. -/
def deref (dialogues : List Dialogue) (it : FilteredDialogueIterator) : Option Dialogue :=
  dialogues[it.mIter]?

/-! The two lemmas below are used by the termination proof of the loop of `begin()`. -/

/-- One unfolding of the loop of `operator++`. -/
theorem doWhile_eq (filter : DialogueType) (dialogues : List Dialogue) (mEndIter mIter : Nat) :
    doWhile filter dialogues mEndIter mIter =
      if mIter + 1 ≠ mEndIter then
        match dialogues[mIter + 1]? with
        | some d =>
          if d.mType ≠ filter then doWhile filter dialogues mEndIter (mIter + 1) else mIter + 1
        | none => mIter + 1
      else mIter + 1 := by
  rw [doWhile]
  split
  · split
    · next d hd => rw [hd]
    · next hd => rw [hd]
  · rfl

/-- The loop of `operator++` moves the decorated iterator forward. -/
theorem lt_doWhile (filter : DialogueType) (dialogues : List Dialogue) (mEndIter mIter : Nat) :
    mIter < doWhile filter dialogues mEndIter mIter := by
  induction mIter using doWhile.induct filter dialogues mEndIter with
  | case1 m hne d hd hty ih =>
    rw [doWhile_eq, if_pos hne, hd]
    simp only [if_pos hty]
    omega
  | case2 m hne d hd hty =>
    rw [doWhile_eq, if_pos hne, hd]
    simp only [if_neg hty]
    exact Nat.lt_succ_self m
  | case3 m hne hd =>
    rw [doWhile_eq, if_pos hne, hd]
    exact Nat.lt_succ_self m
  | case4 m he =>
    rw [doWhile_eq, if_neg he]
    omega

end FilteredDialogueIterator

namespace FilteredDialogueStore

open FilteredDialogueIterator

/-- Embedding of `FilteredDialogueStore::end()`. -/
def end_ (store : Store) : FilteredDialogueIterator :=
  { mIter := store.records.length, mEndIter := store.records.length }

/-- The loop `while (result != end() && result->mType != filter) { ++result; }` of
`begin()`, for `result` with the decorated iterator at `mIter`; `++result` is the
filtered iterator's `operator++`. -/
def beginLoop (filter : DialogueType) (store : Store) (mIter : Nat) : FilteredDialogueIterator :=
  let result : FilteredDialogueIterator := { mIter := mIter, mEndIter := store.records.length }
  if ¬ result.eq (end_ store) then
    match hderef : result.deref store.records with
    | some d =>
      if d.mType ≠ filter then beginLoop filter store (result.inc filter store.records).mIter
      else result
    | none => result
  else result
termination_by store.records.length - mIter
decreasing_by
  have hlt : mIter < store.records.length := (List.getElem?_eq_some_iff.mp hderef).1
  have hgt := lt_doWhile filter store.records store.records.length mIter
  have hne : mIter ≠ store.records.length := Nat.ne_of_lt hlt
  simp only [inc, hne, if_false]
  omega

/-- Embedding of `FilteredDialogueStore::begin()`. -/
def begin (filter : DialogueType) (store : Store) : FilteredDialogueIterator :=
  beginLoop filter store 0

/-- Embedding of `FilteredDialogueStore::search`. -/
def search (filter : DialogueType) (store : Store) (id : RefId) : Option Dialogue :=
  foundDialogueFilteredOut filter (store.search id)

/-- Embedding of `FilteredDialogueStore::at`: `result += index` converts the `size_t` index
to the iterator's signed `difference_type`. -/
def at_ (filter : DialogueType) (store : Store) (index : Nat) : Option Dialogue :=
  let result := (begin filter store).addAssign filter store.records (toDifferenceType index)
  if result.eq (end_ store) then none else result.deref store.records

/-- Embedding of `FilteredDialogueStore::getSize`. -/
def getSize (filter : DialogueType) (store : Store) : Nat :=
  store.records.countP (fun d => d.mType = filter)

/-- The numeric overload of the store's `sol::meta_function::index`, for a `size_t`
key `index`. -/
def index (filter : DialogueType) (store : Store) (index : Nat) : Option Dialogue :=
  if index = 0 then none else at_ filter store (index - 1)

end FilteredDialogueStore

/-! ## Dialogue record bindings -/

/-- The search of the `for` loop of the `questName` property: the response of the first
info, in list order, whose quest status is `QS_Name`. -/
def questNameLoop : List DialInfo → Option String
  | [] => none
  | mwDialogueInfo :: rest =>
    if mwDialogueInfo.mQuestStatus = QuestStatus.QS_Name then some mwDialogueInfo.mResponse
    else questNameLoop rest

/-- The `questName` property of `ESM3_Dialogue`. -/
def questName (rec : Dialogue) : Option String :=
  if rec.mType ≠ DialogueType.Journal then none
  else questNameLoop rec.mInfo

/-! ## Info list bindings (`DialogueInfos`) -/

namespace DialogueInfos

/-- Embedding of `std::advance(iter, n)` on an iterator of the info list: `n` increments of
the position `iter`. -/
def advance (iter : Nat) (n : Nat) : Nat :=
  match n with
  | 0 => iter
  | n + 1 => advance (iter + 1) n

/-- The `sol::meta_function::length` of the info list. -/
def length (parentDialogueRecord : Dialogue) : Nat :=
  parentDialogueRecord.mInfo.length

/-- The `sol::meta_function::index` of the info list, for a `size_t` key `index`. The
iterator starts at `cbegin()` (position 0) and is dereferenced after
`std::advance(iter, index - 1)`. -/
def index (parentDialogueRecord : Dialogue) (index : Nat) : Option DialInfo :=
  if index = 0 ∨ index > parentDialogueRecord.mInfo.length then none
  else parentDialogueRecord.mInfo[advance 0 (index - 1)]?

end DialogueInfos

/-! ## Info bindings (`ESM3_Dialogue_Info`) -/

namespace DialInfo

/-- The `questStage` property. -/
def questStage (rec : DialInfo) : Option Int :=
  if rec.mData.mType ≠ DialogueType.Journal then none else some rec.mData.mJournalIndex

/-- The `isQuestFinished` property. -/
def isQuestFinished (rec : DialInfo) : Option Bool :=
  if rec.mData.mType ≠ DialogueType.Journal then none
  else some (decide (rec.mQuestStatus = QuestStatus.QS_Finished))

/-- The `isQuestRestart` property. -/
def isQuestRestart (rec : DialInfo) : Option Bool :=
  if rec.mData.mType ≠ DialogueType.Journal then none
  else some (decide (rec.mQuestStatus = QuestStatus.QS_Restart))

/-- The `isQuestName` property. -/
def isQuestName (rec : DialInfo) : Option Bool :=
  if rec.mData.mType ≠ DialogueType.Journal then none
  else some (decide (rec.mQuestStatus = QuestStatus.QS_Name))

/-- The `filterActorId` property. -/
def filterActorId (rec : DialInfo) : Option String :=
  if rec.mData.mType = DialogueType.Journal ∨ rec.mActor.empty = true then none
  else some rec.mActor.serializeText

/-- The `filterActorRace` property. -/
def filterActorRace (rec : DialInfo) : Option String :=
  if rec.mData.mType = DialogueType.Journal ∨ rec.mRace.empty = true then none
  else some rec.mRace.serializeText

/-- The `filterActorClass` property. -/
def filterActorClass (rec : DialInfo) : Option String :=
  if rec.mData.mType = DialogueType.Journal ∨ rec.mClass.empty = true then none
  else some rec.mClass.serializeText

/-- The `filterActorFaction` property. -/
def filterActorFaction (rec : DialInfo) : Option String :=
  if rec.mData.mType = DialogueType.Journal ∨ rec.mFaction.empty = true then none
  else if rec.mFactionLess = true then some ""
  else some rec.mFaction.serializeText

/-- The `filterActorFactionRank` property. -/
def filterActorFactionRank (rec : DialInfo) : Option Int :=
  if rec.mData.mType = DialogueType.Journal ∨ rec.mData.mRank = -1 then none
  else some rec.mData.mRank

/-- The `filterActorCell` property. -/
def filterActorCell (rec : DialInfo) : Option String :=
  if rec.mData.mType = DialogueType.Journal ∨ rec.mCell.empty = true then none
  else some rec.mCell.serializeText

/-- The `filterActorDisposition` property. -/
def filterActorDisposition (rec : DialInfo) : Option Int :=
  if rec.mData.mType = DialogueType.Journal then none
  else some rec.mData.mDisposition

/-- The `filterActorGender` property. -/
def filterActorGender (rec : DialInfo) : Option Int :=
  if rec.mData.mType = DialogueType.Journal ∨ rec.mData.mGender = -1 then none
  else some rec.mData.mGender

/-- The `filterPlayerFaction` property. -/
def filterPlayerFaction (rec : DialInfo) : Option String :=
  if rec.mData.mType = DialogueType.Journal ∨ rec.mPcFaction.empty = true then none
  else some rec.mPcFaction.serializeText

/-- The `filterPlayerFactionRank` property. -/
def filterPlayerFactionRank (rec : DialInfo) : Option Int :=
  if rec.mData.mType = DialogueType.Journal ∨ rec.mData.mPCrank = -1 then none
  else some rec.mData.mPCrank

/-- The `sound` property; `correctSoundPath` stands for
`Misc::ResourceHelpers::correctSoundPath(VFS::Path::Normalized(...)).value()`. -/
def sound (correctSoundPath : String → String) (rec : DialInfo) : Option String :=
  if rec.mData.mType = DialogueType.Journal ∨ rec.mSound.isEmpty = true then none
  else some (correctSoundPath rec.mSound)

/-- The `resultScript` property. -/
def resultScript (rec : DialInfo) : Option String :=
  if rec.mResultScript.isEmpty = true then none else some rec.mResultScript

end DialInfo

/-! ## Actor skeleton helpers (`MWRender`) -/

/-- The model paths of `Settings::models()` read by the helpers. -/
structure ModelsSettings where
  mXbaseanim1st : String
  mBaseanim : String
  mBaseanimkna : String
  mBaseanimkna1st : String
  mBaseanimfemale : String
  mBaseanimfemale1st : String
  mWolfskin : String
  mWolfskin1st : String
  deriving DecidableEq, Repr

/-- Embedding of `MWRender::getActorSkeleton`, with `Settings::models()` passed as `models`. -/
def getActorSkeleton (models : ModelsSettings) (firstPerson isFemale isBeast isWerewolf : Bool) :
    String :=
  if !firstPerson then
    if isWerewolf then models.mWolfskin
    else if isBeast then models.mBaseanimkna
    else if isFemale then models.mBaseanimfemale
    else models.mBaseanim
  else
    if isWerewolf then models.mWolfskin1st
    else if isBeast then models.mBaseanimkna1st
    else if isFemale then models.mBaseanimfemale1st
    else models.mXbaseanim1st

/-- Embedding of `MWRender::isDefaultActorSkeleton`, with `Settings::models()` passed as
`models` and `VFS::Path::pathEqual` as `pathEqual`. -/
def isDefaultActorSkeleton (pathEqual : String → String → Bool) (models : ModelsSettings)
    (model : String) : Bool :=
  pathEqual models.mBaseanimkna model || pathEqual models.mBaseanimfemale model
    || pathEqual models.mBaseanim model

/-- Embedding of `std::string::rfind(char)`: the position of the last occurrence of `c` in `s`;
`none` is `std::string::npos`. -/
def rfind (s : List Char) (c : Char) : Option Nat :=
  match s with
  | [] => none
  | x :: rest =>
    match rfind rest c with
    | some pos => some (pos + 1)
    | none => if x = c then some 0 else none

/-- Embedding of `MWRender::addSuffixBeforeExtension`; `substr(0, dotPos)` is `take dotPos` and
`substr(dotPos)` is `drop dotPos`. -/
def addSuffixBeforeExtension (filename suffix : List Char) : List Char :=
  match rfind filename '.' with
  | none => filename ++ suffix
  | some dotPos => filename.take dotPos ++ suffix ++ filename.drop dotPos

/-! ## Specification-side definitions -/

/-- The invariant of a filtered iterator over `dialogues`: its end is the end of the
store, and it points at the end or at a record of the filter's type. -/
def FilteredDialogueIterator.Valid (filter : DialogueType) (dialogues : List Dialogue)
    (it : FilteredDialogueIterator) : Prop :=
  it.mEndIter = dialogues.length ∧ it.mIter ≤ dialogues.length ∧
    ∀ d, dialogues[it.mIter]? = some d → d.mType = filter

/-- The records of `dialogues` from position `pos` on whose `mType` is the filter. -/
def remaining (filter : DialogueType) (dialogues : List Dialogue) (pos : Nat) : List Dialogue :=
  (dialogues.drop pos).filter (fun d => decide (d.mType = filter))

/-- The plain filter of the underlying list, in the words of the specification: the
records whose `mType` equals the filter, in store order. -/
def filteredRecords (filter : DialogueType) (store : Store) : List Dialogue :=
  store.records.filter (fun d => decide (d.mType = filter))

/-- The extension of a string in the words of the specification: its substring from its
last `.` to its end, empty when the string contains no `.`. -/
def extension (s : List Char) : List Char :=
  match s with
  | [] => []
  | x :: rest =>
    if '.' ∈ rest then extension rest
    else if x = '.' then x :: rest
    else []

/-- A sequence of iterator operations applied to an iterator: `operator++` and
`operator+=` with a given `difference_type` argument. -/
inductive IteratorStep where
  | inc
  | addAssign (advance : Int)
  deriving DecidableEq, Repr

/-- The iterator after one operation. -/
def IteratorStep.apply (filter : DialogueType) (dialogues : List Dialogue)
    (it : FilteredDialogueIterator) : IteratorStep → FilteredDialogueIterator
  | IteratorStep.inc => it.inc filter dialogues
  | IteratorStep.addAssign advance => it.addAssign filter dialogues advance

/-- The iterator obtained from `begin()` by a finite sequence of operations, applied in
order. -/
def iterateFromBegin (filter : DialogueType) (store : Store) (steps : List IteratorStep) :
    FilteredDialogueIterator :=
  steps.foldl (IteratorStep.apply filter store.records) (FilteredDialogueStore.begin filter store)

/-! ## Sample data -/

/-- A topic record without infos. -/
def sampleTopic : Dialogue :=
  { mId := { empty := false, serializeText := "background" }, mStringId := "Background",
    mType := DialogueType.Topic, mInfo := [] }

/-- A store holding the single record `sampleTopic`. -/
def sampleStore : Store :=
  { records := [sampleTopic],
    search := fun id => if id = sampleTopic.mId then some sampleTopic else none }

/-- An info with the given data type, quest status and response, and no filters. -/
def sampleInfo (type : DialogueType) (status : QuestStatus) (response : String) : DialInfo :=
  { mData :=
      { mType := type, mDisposition := 0, mJournalIndex := 10, mRank := -1, mGender := -1,
        mPCrank := -1 },
    mId := { empty := false, serializeText := "1234" },
    mActor := { empty := true, serializeText := "" },
    mRace := { empty := true, serializeText := "" },
    mClass := { empty := true, serializeText := "" },
    mFaction := { empty := true, serializeText := "" },
    mPcFaction := { empty := true, serializeText := "" },
    mCell := { empty := true, serializeText := "" },
    mSound := "", mResponse := response, mResultScript := "", mFactionLess := false,
    mQuestStatus := status }

/-- A journal record whose second info carries the quest name. -/
def sampleJournal : Dialogue :=
  { mId := { empty := false, serializeText := "a1_quest" }, mStringId := "A1_Quest",
    mType := DialogueType.Journal,
    mInfo := [sampleInfo DialogueType.Journal QuestStatus.QS_None "First entry",
      sampleInfo DialogueType.Journal QuestStatus.QS_Name "The Quest",
      sampleInfo DialogueType.Journal QuestStatus.QS_Finished "Done"] }

/-- A second topic record. -/
def sampleTopic2 : Dialogue :=
  { mId := { empty := false, serializeText := "latest rumors" }, mStringId := "Latest Rumors",
    mType := DialogueType.Topic, mInfo := [] }

/-- A store holding journal and topic records in alternation. -/
def sampleMixedStore : Store :=
  { records := [sampleJournal, sampleTopic, sampleJournal, sampleTopic2],
    search := fun _ => none }

/-- A topic info with the given faction id and factionless flag. -/
def sampleFactionInfo (faction : RefId) (factionLess : Bool) : DialInfo :=
  { sampleInfo DialogueType.Topic QuestStatus.QS_None "text" with
    mFaction := faction, mFactionLess := factionLess }

/-- A topic info with the given disposition, rank, gender and player rank. -/
def sampleRankInfo (disposition rank gender pcRank : Int) : DialInfo :=
  { sampleInfo DialogueType.Topic QuestStatus.QS_None "text" with
    mData :=
      { mType := DialogueType.Topic, mDisposition := disposition, mJournalIndex := 0,
        mRank := rank, mGender := gender, mPCrank := pcRank } }

/-- Model paths as in the default settings. -/
def sampleModels : ModelsSettings :=
  { mXbaseanim1st := "meshes/xbase_anim.1st.nif", mBaseanim := "meshes/base_anim.nif",
    mBaseanimkna := "meshes/base_animkna.nif",
    mBaseanimkna1st := "meshes/base_animkna.1st.nif",
    mBaseanimfemale := "meshes/base_anim_female.nif",
    mBaseanimfemale1st := "meshes/base_anim_female.1st.nif",
    mWolfskin := "meshes/wolf/skin.nif", mWolfskin1st := "meshes/wolf/skin.1st.nif" }

/-! ## Theorems: iterator invariant -/

namespace FilteredDialogueIterator

/-- The loop of `operator++`, run towards the end of the store, stops inside the store or
at its end, and at a record of the filter's type if it stops inside. -/
theorem doWhile_spec (filter : DialogueType) (dialogues : List Dialogue) (mIter : Nat)
    (hlt : mIter < dialogues.length) :
    doWhile filter dialogues dialogues.length mIter ≤ dialogues.length ∧
      ∀ d, dialogues[doWhile filter dialogues dialogues.length mIter]? = some d →
        d.mType = filter := by
  induction mIter using doWhile.induct filter dialogues dialogues.length with
  | case1 m hne d hd hty ih =>
    have hm : m + 1 < dialogues.length := (List.getElem?_eq_some_iff.mp hd).1
    rw [doWhile_eq, if_pos hne, hd]
    simp only [if_pos hty]
    exact ih hm
  | case2 m hne d hd hty =>
    have hm : m + 1 < dialogues.length := (List.getElem?_eq_some_iff.mp hd).1
    rw [doWhile_eq, if_pos hne, hd]
    simp only [if_neg hty]
    refine ⟨Nat.le_of_lt hm, fun d2 hd2 => ?_⟩
    rw [hd] at hd2
    cases hd2
    exact not_not.mp hty
  | case3 m hne hd =>
    have hge : dialogues.length ≤ m + 1 := List.getElem?_eq_none_iff.mp hd
    exact absurd (Nat.le_antisymm hlt hge) hne
  | case4 m he =>
    have he2 : m + 1 = dialogues.length := not_not.mp he
    rw [doWhile_eq, if_neg he]
    refine ⟨Nat.le_of_eq he2, fun d hd => ?_⟩
    rw [he2, List.getElem?_eq_none (Nat.le_refl _)] at hd
    cases hd

/-- The operator `operator++` preserves the invariant. -/
theorem inc_valid (filter : DialogueType) (dialogues : List Dialogue)
    (it : FilteredDialogueIterator) (h : Valid filter dialogues it) :
    Valid filter dialogues (inc filter dialogues it) := by
  obtain ⟨hend, hle, hty⟩ := h
  unfold inc
  split
  · exact ⟨hend, hle, hty⟩
  · next hne =>
    have hlt : it.mIter < dialogues.length := by omega
    have hs := doWhile_spec filter dialogues it.mIter hlt
    rw [hend]
    exact ⟨rfl, hs.1, hs.2⟩

/-- The operator `operator+=` preserves the invariant. -/
theorem addAssign_valid (filter : DialogueType) (dialogues : List Dialogue)
    (it : FilteredDialogueIterator) (advance : Int) (h : Valid filter dialogues it) :
    Valid filter dialogues (addAssign filter dialogues it advance) := by
  induction it, advance using addAssign.induct filter dialogues with
  | case1 it advance hc ih =>
    rw [addAssign, dif_pos hc]
    exact ih (inc_valid filter dialogues it h)
  | case2 it advance hc =>
    rw [addAssign, dif_neg hc]
    exact h

/-- An iterator satisfying the invariant equals `end()` or refers to a record of the
filter's type. -/
theorem Valid.end_or_deref (filter : DialogueType) (store : Store)
    (it : FilteredDialogueIterator) (h : Valid filter store.records it) :
    it.eq (FilteredDialogueStore.end_ store) = true ∨
      ∃ d, it.deref store.records = some d ∧ d.mType = filter := by
  obtain ⟨_, hle, hty⟩ := h
  by_cases he : it.mIter = store.records.length
  · left
    simp [FilteredDialogueIterator.eq, FilteredDialogueStore.end_, he]
  · right
    have hlt : it.mIter < store.records.length := by omega
    refine ⟨store.records[it.mIter], ?_, hty _ ?_⟩ <;>
      simp [deref, List.getElem?_eq_getElem hlt]

end FilteredDialogueIterator

namespace FilteredDialogueStore

open FilteredDialogueIterator

/-- One unfolding of the loop of `begin()`. -/
theorem beginLoop_eq (filter : DialogueType) (store : Store) (mIter : Nat) :
    beginLoop filter store mIter =
      if ¬ FilteredDialogueIterator.eq ⟨mIter, store.records.length⟩ (end_ store) then
        match deref store.records ⟨mIter, store.records.length⟩ with
        | some d =>
          if d.mType ≠ filter then
            beginLoop filter store
              (inc filter store.records ⟨mIter, store.records.length⟩).mIter
          else ⟨mIter, store.records.length⟩
        | none => ⟨mIter, store.records.length⟩
      else ⟨mIter, store.records.length⟩ := by
  rw [beginLoop]
  split
  · split
    · next d hd => rw [hd]
    · next hd => rw [hd]
  · rfl

/-- The loop of `begin()` ends at an iterator satisfying the invariant. -/
theorem beginLoop_valid (filter : DialogueType) (store : Store) (mIter : Nat)
    (hle : mIter ≤ store.records.length) :
    Valid filter store.records (beginLoop filter store mIter) := by
  generalize hn : store.records.length - mIter = n
  induction n using Nat.strong_induction_on generalizing mIter with
  | _ n ih =>
    rw [beginLoop_eq]
    by_cases he : mIter = store.records.length
    · have hc :
          ¬¬FilteredDialogueIterator.eq ⟨mIter, store.records.length⟩ (end_ store)
            = true := by
        simp [FilteredDialogueIterator.eq, end_, he]
      rw [if_neg hc]
      refine ⟨rfl, hle, fun d hd => ?_⟩
      rw [List.getElem?_eq_none (Nat.le_of_eq he.symm)] at hd
      cases hd
    · have hlt : mIter < store.records.length := by omega
      have hc :
          ¬FilteredDialogueIterator.eq ⟨mIter, store.records.length⟩ (end_ store) = true := by
        simp [FilteredDialogueIterator.eq, end_, he]
      have hd :
          deref store.records ⟨mIter, store.records.length⟩ = some store.records[mIter] := by
        simp [deref, List.getElem?_eq_getElem hlt]
      rw [if_pos hc, hd]
      by_cases hty : store.records[mIter].mType = filter
      · simp only [ne_eq, hty, not_true_eq_false, if_false]
        refine ⟨rfl, hle, fun d hd2 => ?_⟩
        rw [List.getElem?_eq_getElem hlt] at hd2
        cases hd2
        exact hty
      · simp only [ne_eq, hty, not_false_eq_true, if_true]
        have hs := doWhile_spec filter store.records mIter hlt
        have hgt := lt_doWhile filter store.records store.records.length mIter
        have hinc : (inc filter store.records ⟨mIter, store.records.length⟩).mIter
            = doWhile filter store.records store.records.length mIter := by
          simp [inc, he]
        rw [hinc]
        exact ih _ (by omega) _ hs.1 rfl

/-- The iterator `begin()` satisfies the invariant. -/
theorem begin_valid (filter : DialogueType) (store : Store) :
    Valid filter store.records (begin filter store) :=
  beginLoop_valid filter store 0 (Nat.zero_le _)

end FilteredDialogueStore

/-! ## Theorems: the filtered iterator walks the filtered list -/

/-- At a position holding a record of the filter's type, that record is the first of
the remaining ones. -/
theorem remaining_of_match (filter : DialogueType) (dialogues : List Dialogue) (pos : Nat)
    (d : Dialogue) (hd : dialogues[pos]? = some d) (hty : d.mType = filter) :
    remaining filter dialogues pos = d :: remaining filter dialogues (pos + 1) := by
  obtain ⟨hlt, hget⟩ := List.getElem?_eq_some_iff.mp hd
  unfold remaining
  rw [List.drop_eq_getElem_cons hlt, hget, List.filter_cons_of_pos (by simpa using hty)]

/-- A position holding a record of another type does not count. -/
theorem remaining_of_mismatch (filter : DialogueType) (dialogues : List Dialogue) (pos : Nat)
    (d : Dialogue) (hd : dialogues[pos]? = some d) (hty : d.mType ≠ filter) :
    remaining filter dialogues pos = remaining filter dialogues (pos + 1) := by
  obtain ⟨hlt, hget⟩ := List.getElem?_eq_some_iff.mp hd
  unfold remaining
  rw [List.drop_eq_getElem_cons hlt, hget, List.filter_cons_of_neg (by simpa using hty)]

/-- Nothing remains at or after the end of the store. -/
theorem remaining_of_le (filter : DialogueType) (dialogues : List Dialogue) (pos : Nat)
    (h : dialogues.length ≤ pos) : remaining filter dialogues pos = [] := by
  unfold remaining
  rw [List.drop_eq_nil_of_le h]
  rfl

namespace FilteredDialogueIterator

/-- The loop of `operator++` skips exactly the records of other types that follow the
starting position. -/
theorem remaining_doWhile (filter : DialogueType) (dialogues : List Dialogue) (mIter : Nat)
    (hlt : mIter < dialogues.length) :
    remaining filter dialogues (doWhile filter dialogues dialogues.length mIter)
      = remaining filter dialogues (mIter + 1) := by
  induction mIter using doWhile.induct filter dialogues dialogues.length with
  | case1 m hne d hd hty ih =>
    have hm : m + 1 < dialogues.length := (List.getElem?_eq_some_iff.mp hd).1
    rw [doWhile_eq, if_pos hne, hd]
    simp only [if_pos hty]
    rw [ih hm, remaining_of_mismatch filter dialogues (m + 1) d hd hty]
  | case2 m hne d hd hty =>
    rw [doWhile_eq, if_pos hne, hd]
    simp only [if_neg hty]
  | case3 m hne hd =>
    rw [doWhile_eq, if_pos hne, hd]
  | case4 m he =>
    rw [doWhile_eq, if_neg he]

/-- The operator `operator++` drops the first of the remaining records. -/
theorem remaining_inc (filter : DialogueType) (dialogues : List Dialogue)
    (it : FilteredDialogueIterator) (h : Valid filter dialogues it) :
    remaining filter dialogues (inc filter dialogues it).mIter
      = (remaining filter dialogues it.mIter).tail := by
  obtain ⟨hend, hle, hty⟩ := h
  unfold inc
  split
  · next he =>
    rw [remaining_of_le filter dialogues it.mIter (by omega)]
    rfl
  · next hne =>
    have hlt : it.mIter < dialogues.length := by omega
    have hd : dialogues[it.mIter]? = some dialogues[it.mIter] := List.getElem?_eq_getElem hlt
    simp only []
    rw [hend, remaining_doWhile filter dialogues it.mIter hlt,
      remaining_of_match filter dialogues it.mIter _ hd (hty _ hd)]
    rfl

/-- The operator `operator+=` with a positive argument drops that many of the remaining
records, and with any other argument drops none. -/
theorem remaining_addAssign (filter : DialogueType) (dialogues : List Dialogue)
    (it : FilteredDialogueIterator) (advance : Int) (h : Valid filter dialogues it) :
    remaining filter dialogues (addAssign filter dialogues it advance).mIter
      = (remaining filter dialogues it.mIter).drop advance.toNat := by
  induction it, advance using addAssign.induct filter dialogues with
  | case1 it advance hc ih =>
    rw [addAssign, dif_pos hc, ih (inc_valid filter dialogues it h),
      remaining_inc filter dialogues it h, List.drop_tail]
    congr 1
    omega
  | case2 it advance hc =>
    rw [addAssign, dif_neg hc]
    by_cases hadv : advance > 0
    · have he : it.mIter = it.mEndIter := by
        by_contra hne
        exact hc ⟨hadv, hne⟩
      rw [remaining_of_le filter dialogues it.mIter (by rw [he, h.1])]
      simp
    · have hz : advance.toNat = 0 := by omega
      rw [hz]
      rfl

/-- Comparing with `end()` and dereferencing reads the first of the remaining records. -/
theorem deref_eq_head_remaining (filter : DialogueType) (store : Store)
    (it : FilteredDialogueIterator) (h : Valid filter store.records it) :
    (if it.eq (FilteredDialogueStore.end_ store) = true then none
      else it.deref store.records) = (remaining filter store.records it.mIter).head? := by
  obtain ⟨_, hle, hty⟩ := h
  by_cases he : it.mIter = store.records.length
  · have hc : it.eq (FilteredDialogueStore.end_ store) = true := by
      simp [FilteredDialogueIterator.eq, FilteredDialogueStore.end_, he]
    rw [if_pos hc, remaining_of_le filter store.records it.mIter (by omega)]
    rfl
  · have hc : ¬it.eq (FilteredDialogueStore.end_ store) = true := by
      simp [FilteredDialogueIterator.eq, FilteredDialogueStore.end_, he]
    have hlt : it.mIter < store.records.length := by omega
    have hd : store.records[it.mIter]? = some store.records[it.mIter] :=
      List.getElem?_eq_getElem hlt
    rw [if_neg hc, remaining_of_match filter store.records it.mIter _ hd (hty _ hd)]
    exact hd

end FilteredDialogueIterator

namespace FilteredDialogueStore

open FilteredDialogueIterator

/-- The loop of `begin()` skips only records of other types. -/
theorem remaining_beginLoop (filter : DialogueType) (store : Store) (mIter : Nat)
    (hle : mIter ≤ store.records.length) :
    remaining filter store.records (beginLoop filter store mIter).mIter
      = remaining filter store.records mIter := by
  generalize hn : store.records.length - mIter = n
  induction n using Nat.strong_induction_on generalizing mIter with
  | _ n ih =>
    rw [beginLoop_eq]
    by_cases he : mIter = store.records.length
    · have hc :
          ¬¬FilteredDialogueIterator.eq ⟨mIter, store.records.length⟩ (end_ store)
            = true := by
        simp [FilteredDialogueIterator.eq, end_, he]
      rw [if_neg hc]
    · have hlt : mIter < store.records.length := by omega
      have hc :
          ¬FilteredDialogueIterator.eq ⟨mIter, store.records.length⟩ (end_ store) = true := by
        simp [FilteredDialogueIterator.eq, end_, he]
      have hget : store.records[mIter]? = some store.records[mIter] :=
        List.getElem?_eq_getElem hlt
      have hd : deref store.records ⟨mIter, store.records.length⟩ = some store.records[mIter] :=
        hget
      rw [if_pos hc, hd]
      by_cases hty : store.records[mIter].mType = filter
      · simp only [ne_eq, hty, not_true_eq_false, if_false]
      · simp only [ne_eq, hty, not_false_eq_true, if_true]
        have hs := doWhile_spec filter store.records mIter hlt
        have hgt := lt_doWhile filter store.records store.records.length mIter
        have hinc : (inc filter store.records ⟨mIter, store.records.length⟩).mIter
            = doWhile filter store.records store.records.length mIter := by
          simp [inc, he]
        rw [hinc, ih _ (by omega) _ hs.1 rfl, remaining_doWhile filter store.records mIter hlt,
          remaining_of_mismatch filter store.records mIter _ hget hty]

/-- The result of `at(index)` read off the list of the records whose `mType` is the
filter: the record at the position the index has as a `difference_type`, position 0
when that is negative. -/
theorem at_eq (filter : DialogueType) (store : Store) (index : Nat) :
    at_ filter store index
      = (store.records.filter (fun d => decide (d.mType = filter)))[
          (toDifferenceType index).toNat]? := by
  have hb := begin_valid filter store
  have hv := addAssign_valid filter store.records _ (toDifferenceType index) hb
  unfold at_
  simp only []
  rw [deref_eq_head_remaining filter store _ hv,
    remaining_addAssign filter store.records _ _ hb]
  unfold begin
  rw [remaining_beginLoop filter store 0 (Nat.zero_le _)]
  simp [remaining, List.head?_drop]

/-- The index operation returns null for the key 0 and for every key above `getSize()`
up to `2 ^ 63`. -/
theorem index_eq_none_of_small (filter : DialogueType) (store : Store) (k : Nat)
    (hk : k = 0 ∨ (getSize filter store < k ∧ k ≤ 2 ^ 63)) :
    index filter store k = none := by
  unfold index
  split
  · rfl
  · next h0 =>
    have h1 : getSize filter store < k ∧ k ≤ 2 ^ 63 := hk.resolve_left h0
    have hd : toDifferenceType (k - 1) = ((k - 1 : Nat) : Int) := by
      unfold toDifferenceType
      have : (k - 1) % 2 ^ 64 = k - 1 := Nat.mod_eq_of_lt (by omega)
      rw [this, if_pos (by omega)]
    rw [at_eq, hd, Int.toNat_ofNat]
    apply List.getElem?_eq_none
    rw [← List.countP_eq_length_filter]
    unfold getSize at h1
    omega

/-- For every key above `2 ^ 63` the index operation returns the first record whose
`mType` is the filter, if there is one: the index reaches `operator+=` as a negative
number. -/
theorem index_eq_head_of_huge (filter : DialogueType) (store : Store) (k : Nat)
    (h1 : 2 ^ 63 < k) (h2 : k < 2 ^ 64) :
    index filter store k
      = (store.records.filter (fun d => decide (d.mType = filter))).head? := by
  unfold index
  rw [if_neg (by omega), at_eq]
  have hd : toDifferenceType (k - 1) = ((k - 1 : Nat) : Int) - 2 ^ 64 := by
    unfold toDifferenceType
    have : (k - 1) % 2 ^ 64 = k - 1 := Nat.mod_eq_of_lt (by omega)
    rw [this, if_neg (by omega)]
  have hz : (toDifferenceType (k - 1)).toNat = 0 := by
    rw [hd]
    omega
  rw [hz, List.head?_eq_getElem?]

end FilteredDialogueStore

/-! ## Theorems: filtered store -/

/-- Every iterator obtained from `begin()` by a sequence of operations satisfies the
invariant. -/
theorem iterateFromBegin_valid (filter : DialogueType) (store : Store)
    (steps : List IteratorStep) :
    FilteredDialogueIterator.Valid filter store.records (iterateFromBegin filter store steps) := by
  unfold iterateFromBegin
  generalize hb : FilteredDialogueStore.begin filter store = it
  have hv : FilteredDialogueIterator.Valid filter store.records it :=
    hb ▸ FilteredDialogueStore.begin_valid filter store
  clear hb
  induction steps generalizing it with
  | nil => exact hv
  | cons step rest ih =>
    rw [List.foldl_cons]
    apply ih
    cases step with
    | inc => exact FilteredDialogueIterator.inc_valid filter store.records it hv
    | addAssign advance =>
      exact FilteredDialogueIterator.addAssign_valid filter store.records it advance hv

/-- C2: filtering preserves the type tag. Every iterator obtained from `begin()` by a
finite sequence of `operator++` and `operator+=` steps is equal to `end()` or refers to a
record whose `mType` is the filter, and every result of `at(index)` is null or a record
whose `mType` is the filter. -/
theorem filtered_iterator_preserves_type (filter : DialogueType) (store : Store)
    (steps : List IteratorStep) (index : Nat) :
    ((iterateFromBegin filter store steps).eq (FilteredDialogueStore.end_ store) = true ∨
      ∃ d, (iterateFromBegin filter store steps).deref store.records = some d ∧
        d.mType = filter) ∧
    (FilteredDialogueStore.at_ filter store index = none ∨
      ∃ d, FilteredDialogueStore.at_ filter store index = some d ∧ d.mType = filter) := by
  refine ⟨FilteredDialogueIterator.Valid.end_or_deref filter store _
    (iterateFromBegin_valid filter store steps), ?_⟩
  have hv := FilteredDialogueIterator.addAssign_valid filter store.records _
    (toDifferenceType index) (FilteredDialogueStore.begin_valid filter store)
  unfold FilteredDialogueStore.at_
  simp only []
  split
  · exact Or.inl rfl
  · next hne =>
    rcases FilteredDialogueIterator.Valid.end_or_deref filter store _ hv with h | h
    · exact absurd h hne
    · exact Or.inr h

/-- C1 fails on the code: in the store holding one topic record, whose filtered size is 1,
the key `2 ^ 64 - 1` is greater than the size but the index operation returns the record.
The index passed to `at` is `2 ^ 64 - 2`, which `operator+=` receives as `-2`, so the
iterator stays at `begin()`. -/
theorem index_huge_key_returns_first_record :
    FilteredDialogueStore.getSize DialogueType.Topic sampleStore = 1 ∧
    toDifferenceType (18446744073709551615 - 1) = -2 ∧
    FilteredDialogueStore.index DialogueType.Topic sampleStore 18446744073709551615
      = some sampleTopic := by
  refine ⟨by decide, by decide, ?_⟩
  simp [FilteredDialogueStore.index, FilteredDialogueStore.at_, FilteredDialogueStore.begin,
    FilteredDialogueStore.beginLoop_eq, FilteredDialogueStore.end_, FilteredDialogueIterator.eq,
    FilteredDialogueIterator.deref, FilteredDialogueIterator.addAssign, toDifferenceType,
    sampleStore, sampleTopic]

/-- C3: `search(id)` of the filtered store returns a record exactly when the underlying
store's `search(id)` finds a record whose `mType` is the filter, and then returns that
record; it returns null when the id is not found or is found with another type. -/
theorem filtered_search_iff (filter : DialogueType) (store : Store) (id : RefId) :
    (∀ d, FilteredDialogueStore.search filter store id = some d ↔
      (store.search id = some d ∧ d.mType = filter)) ∧
    (FilteredDialogueStore.search filter store id = none ↔
      (store.search id = none ∨ ∃ d, store.search id = some d ∧ d.mType ≠ filter)) := by
  unfold FilteredDialogueStore.search foundDialogueFilteredOut
  cases hs : store.search id with
  | none => simp
  | some r =>
    by_cases hty : r.mType = filter
    · simp only [hty, if_true]
      refine ⟨fun d => ?_, ?_⟩
      · constructor
        · intro h
          cases h
          exact ⟨rfl, hty⟩
        · intro h
          exact h.1
      · simp [hty]
    · simp only [hty, if_false]
      refine ⟨fun d => ?_, ?_⟩
      · constructor
        · intro h
          cases h
        · rintro ⟨h1, h2⟩
          cases h1
          exact absurd h2 hty
      · simp [hty]

/-! ## Theorems: suffix insertion -/

/-- The function `rfind` finds nothing exactly when the character does not occur. -/
theorem rfind_eq_none_iff (s : List Char) (c : Char) : rfind s c = none ↔ c ∉ s := by
  induction s with
  | nil => simp [rfind]
  | cons x rest ih =>
    rw [rfind]
    cases hr : rfind rest c with
    | some pos =>
      have hmem : c ∈ rest := by
        by_contra hn
        rw [ih.mpr hn] at hr
        cases hr
      simp [hmem]
    | none =>
      have hn : c ∉ rest := ih.mp hr
      by_cases hx : x = c
      · simp [hx]
      · simp [hx, hn, Ne.symm hx]

/-- The function `rfind` returns the position of an occurrence that no occurrence follows. -/
theorem rfind_append_cons (a t : List Char) (c : Char) (ht : c ∉ t) :
    rfind (a ++ c :: t) c = some a.length := by
  induction a with
  | nil =>
    have hr : rfind t c = none := (rfind_eq_none_iff t c).mpr ht
    simp [rfind, hr]
  | cons x a ih => simp [rfind, ih]

/-- A position returned by `rfind` splits the string at its last occurrence of the
character. -/
theorem rfind_eq_some (s : List Char) (c : Char) (pos : Nat) (h : rfind s c = some pos) :
    s.drop pos = c :: s.drop (pos + 1) ∧ c ∉ s.drop (pos + 1) ∧ pos < s.length := by
  induction s generalizing pos with
  | nil => simp [rfind] at h
  | cons x rest ih =>
    rw [rfind] at h
    cases hr : rfind rest c with
    | some q =>
      rw [hr] at h
      simp only [Option.some.injEq] at h
      subst h
      obtain ⟨h1, h2, h3⟩ := ih q hr
      refine ⟨?_, ?_, ?_⟩
      · simpa using h1
      · simpa using h2
      · simp only [List.length_cons]
        omega
    | none =>
      rw [hr] at h
      have hn : c ∉ rest := (rfind_eq_none_iff rest c).mp hr
      by_cases hx : x = c
      · simp only [hx, if_true, Option.some.injEq] at h
        subst h
        subst hx
        simp [hn]
      · simp [hx] at h

/-- The function `rfind` returns the position of the last occurrence, stated by positions. -/
theorem rfind_eq_some_of_last (s : List Char) (c : Char) (pos : Nat)
    (hpos : s[pos]? = some c) (hlast : ∀ j, pos < j → s[j]? ≠ some c) :
    rfind s c = some pos := by
  induction s generalizing pos with
  | nil => simp at hpos
  | cons x rest ih =>
    rw [rfind]
    cases pos with
    | zero =>
      have hx : x = c := by simpa using hpos
      have hn : c ∉ rest := by
        intro hmem
        obtain ⟨i, hi, hget⟩ := List.getElem_of_mem hmem
        apply hlast (i + 1) (Nat.succ_pos i)
        simp [List.getElem?_eq_getElem hi, hget]
      rw [(rfind_eq_none_iff rest c).mpr hn]
      simp [hx]
    | succ q =>
      have hq : rest[q]? = some c := by simpa using hpos
      have hl : ∀ j, q < j → rest[j]? ≠ some c := by
        intro j hj
        have := hlast (j + 1) (by omega)
        simpa using this
      rw [ih q hq hl]

/-- The extension of a string without `.` is empty. -/
theorem extension_of_not_mem (s : List Char) (h : '.' ∉ s) : extension s = [] := by
  induction s with
  | nil => rfl
  | cons x rest ih =>
    have h1 : '.' ∉ rest := fun hm => h (List.mem_cons_of_mem x hm)
    have h2 : x ≠ '.' := fun hx => h (hx ▸ List.mem_cons_self x rest)
    simp [extension, h1, h2]

/-- The extension of a string whose last `.` is followed by `t` is `.` followed by `t`. -/
theorem extension_append_cons (a t : List Char) (ht : '.' ∉ t) :
    extension (a ++ '.' :: t) = '.' :: t := by
  induction a with
  | nil => simp [extension, ht]
  | cons x a ih =>
    have hm : '.' ∈ a ++ '.' :: t := by simp
    rw [List.cons_append, extension, if_pos hm]
    exact ih

/-- The extension of a string containing `.` is not empty. -/
theorem extension_ne_nil_of_mem (s : List Char) (h : '.' ∈ s) : extension s ≠ [] := by
  induction s with
  | nil => simp at h
  | cons x rest ih =>
    rw [extension]
    by_cases hr : '.' ∈ rest
    · rw [if_pos hr]
      exact ih hr
    · have hx : x = '.' := by
        rcases List.mem_cons.mp h with h1 | h1
        · exact h1.symm
        · exact absurd h1 hr
      rw [if_neg hr, if_pos hx]
      exact List.cons_ne_nil x rest

/-- Suffix insertion changes the extension whenever the filename contains no `.` and
the suffix contains one. -/
theorem addSuffixBeforeExtension_changes_extension (filename suffix : List Char)
    (hf : '.' ∉ filename) (hs : '.' ∈ suffix) :
    extension (addSuffixBeforeExtension filename suffix) ≠ extension filename := by
  unfold addSuffixBeforeExtension
  rw [(rfind_eq_none_iff filename '.').mpr hf, extension_of_not_mem filename hf]
  exact extension_ne_nil_of_mem _ (List.mem_append_right filename hs)

/-- C4, as stated, fails: with the filename `abc`, which has no `.`, and the suffix `.x`,
the result `abc.x` has the extension `.x` while the filename has the empty extension. -/
theorem extension_not_preserved_without_dot :
    addSuffixBeforeExtension ['a', 'b', 'c'] ['.', 'x'] = ['a', 'b', 'c', '.', 'x'] ∧
    extension (addSuffixBeforeExtension ['a', 'b', 'c'] ['.', 'x']) = ['.', 'x'] ∧
    extension ['a', 'b', 'c'] = [] ∧
    extension (addSuffixBeforeExtension ['a', 'b', 'c'] ['.', 'x'])
      ≠ extension ['a', 'b', 'c'] := by
  decide

/-- C4, amended: suffix insertion preserves the extension whenever the filename contains
a `.` or the suffix contains none. -/
theorem addSuffixBeforeExtension_preserves_extension (filename suffix : List Char)
    (h : '.' ∈ filename ∨ '.' ∉ suffix) :
    extension (addSuffixBeforeExtension filename suffix) = extension filename := by
  unfold addSuffixBeforeExtension
  cases hr : rfind filename '.' with
  | none =>
    have hf : '.' ∉ filename := (rfind_eq_none_iff filename '.').mp hr
    have hs : '.' ∉ suffix := h.resolve_left hf
    have hfs : '.' ∉ filename ++ suffix := by
      simp only [List.mem_append, not_or]
      exact ⟨hf, hs⟩
    simp only []
    rw [extension_of_not_mem _ hfs, extension_of_not_mem _ hf]
  | some dotPos =>
    obtain ⟨hd, ht, _⟩ := rfind_eq_some filename '.' dotPos hr
    simp only []
    have hsplit : filename = filename.take dotPos ++ '.' :: filename.drop (dotPos + 1) := by
      rw [← hd, List.take_append_drop]
    rw [hd, extension_append_cons _ _ ht]
    conv_rhs => rw [hsplit]
    rw [extension_append_cons _ _ ht]

/-- The amended C4 at the filename `a.b` and the suffix `.c`. -/
theorem addSuffixBeforeExtension_preserves_extension_witness :
    '.' ∈ ['a', '.', 'b'] ∧
    extension (addSuffixBeforeExtension ['a', '.', 'b'] ['.', 'c']) = extension ['a', '.', 'b'] :=
  ⟨by decide, addSuffixBeforeExtension_preserves_extension ['a', '.', 'b'] ['.', 'c']
    (Or.inl (by decide))⟩

/-- C5: when position `p` holds the last `.` of the filename, the result is the filename's
first `p` characters, then the suffix, then the filename from position `p` on. -/
theorem addSuffixBeforeExtension_with_dot (filename suffix : List Char) (p : Nat)
    (hdot : filename[p]? = some '.') (hlast : ∀ j, p < j → filename[j]? ≠ some '.') :
    addSuffixBeforeExtension filename suffix
      = filename.take p ++ suffix ++ filename.drop p := by
  unfold addSuffixBeforeExtension
  rw [rfind_eq_some_of_last filename '.' p hdot hlast]

/-- C5 at the filename `a.b.c`, whose last `.` is at position 3, and the suffix `_x`. -/
theorem addSuffixBeforeExtension_with_dot_witness :
    addSuffixBeforeExtension ['a', '.', 'b', '.', 'c'] ['_', 'x']
      = ['a', '.', 'b', '_', 'x', '.', 'c'] :=
  addSuffixBeforeExtension_with_dot ['a', '.', 'b', '.', 'c'] ['_', 'x'] 3 (by decide)
    (fun j hj => by
      match j, hj with
      | 4, _ => decide
      | n + 5, _ => simp)

/-- C6: when the filename contains no `.`, the result is the filename followed by the
suffix. -/
theorem addSuffixBeforeExtension_without_dot (filename suffix : List Char)
    (h : '.' ∉ filename) :
    addSuffixBeforeExtension filename suffix = filename ++ suffix := by
  unfold addSuffixBeforeExtension
  rw [(rfind_eq_none_iff filename '.').mpr h]

/-- C6 at the filename `ab` and the suffix `.x`. -/
theorem addSuffixBeforeExtension_without_dot_witness :
    '.' ∉ ['a', 'b'] ∧ addSuffixBeforeExtension ['a', 'b'] ['.', 'x'] = ['a', 'b', '.', 'x'] :=
  ⟨by decide, addSuffixBeforeExtension_without_dot ['a', 'b'] ['.', 'x'] (by decide)⟩

/-! ## Theorems: actor skeleton -/

/-- C7: `getActorSkeleton` returns, in third person, `mWolfskin` for a werewolf, otherwise
`mBaseanimkna` for a beast, otherwise `mBaseanimfemale` for a female, otherwise
`mBaseanim`; in first person `mWolfskin1st`, `mBaseanimkna1st`, `mBaseanimfemale1st`,
`mXbaseanim1st` under the same conditions in the same priority order. -/
theorem getActorSkeleton_selects (models : ModelsSettings) :
    (∀ isFemale isBeast,
      getActorSkeleton models false isFemale isBeast true = models.mWolfskin) ∧
    (∀ isFemale, getActorSkeleton models false isFemale true false = models.mBaseanimkna) ∧
    getActorSkeleton models false true false false = models.mBaseanimfemale ∧
    getActorSkeleton models false false false false = models.mBaseanim ∧
    (∀ isFemale isBeast,
      getActorSkeleton models true isFemale isBeast true = models.mWolfskin1st) ∧
    (∀ isFemale, getActorSkeleton models true isFemale true false = models.mBaseanimkna1st) ∧
    getActorSkeleton models true true false false = models.mBaseanimfemale1st ∧
    getActorSkeleton models true false false false = models.mXbaseanim1st := by
  refine ⟨?_, ?_, rfl, rfl, ?_, ?_, rfl, rfl⟩
  · intro isFemale isBeast
    cases isFemale <;> cases isBeast <;> rfl
  · intro isFemale
    cases isFemale <;> rfl
  · intro isFemale isBeast
    cases isFemale <;> cases isBeast <;> rfl
  · intro isFemale
    cases isFemale <;> rfl

/-! ## Theorems: info list and info bindings -/

/-- The function `std::advance` moves the position by the number of increments. -/
theorem DialogueInfos.advance_eq (iter n : Nat) : DialogueInfos.advance iter n = iter + n := by
  induction n generalizing iter with
  | zero => rfl
  | succ n ih =>
    rw [DialogueInfos.advance, ih]
    omega

/-- C8: the info list's index operation returns a non-null info exactly for keys `k` with
`1 ≤ k ≤` number of infos, and then the info at 0-based position `k - 1`, reached by an
iterator that stays before the end of the list; for `k = 0` and for `k` greater than the
number of infos it returns null. -/
theorem infos_index_spec (parentDialogueRecord : Dialogue) (k : Nat) :
    ((∃ info, DialogueInfos.index parentDialogueRecord k = some info) ↔
      (1 ≤ k ∧ k ≤ parentDialogueRecord.mInfo.length)) ∧
    ((k = 0 ∨ parentDialogueRecord.mInfo.length < k) ∧
        DialogueInfos.index parentDialogueRecord k = none ∨
      (1 ≤ k ∧ k ≤ parentDialogueRecord.mInfo.length) ∧
        DialogueInfos.advance 0 (k - 1) < parentDialogueRecord.mInfo.length ∧
        DialogueInfos.index parentDialogueRecord k = parentDialogueRecord.mInfo[k - 1]?) := by
  unfold DialogueInfos.index
  rw [DialogueInfos.advance_eq, Nat.zero_add]
  by_cases hk : k = 0 ∨ k > parentDialogueRecord.mInfo.length
  · rw [if_pos hk]
    refine ⟨?_, Or.inl ⟨hk, rfl⟩⟩
    constructor
    · rintro ⟨info, h⟩
      cases h
    · rintro ⟨h1, h2⟩
      omega
  · rw [if_neg hk]
    have h1 : 1 ≤ k := by omega
    have h2 : k ≤ parentDialogueRecord.mInfo.length := by omega
    have h3 : k - 1 < parentDialogueRecord.mInfo.length := by omega
    refine ⟨?_, Or.inr ⟨⟨h1, h2⟩, h3, rfl⟩⟩
    constructor
    · intro _
      exact ⟨h1, h2⟩
    · intro _
      exact ⟨parentDialogueRecord.mInfo[k - 1], List.getElem?_eq_getElem h3⟩

/-- The search loop of `questName` returns the response of an info with status `QS_Name`
that no such info precedes. -/
theorem questNameLoop_first (infos : List DialInfo) (i : Nat) (info : DialInfo)
    (hi : infos[i]? = some info) (hname : info.mQuestStatus = QuestStatus.QS_Name)
    (hfirst : ∀ (j : Nat) (other : DialInfo), j < i → infos[j]? = some other →
      other.mQuestStatus ≠ QuestStatus.QS_Name) :
    questNameLoop infos = some info.mResponse := by
  induction infos generalizing i with
  | nil => simp at hi
  | cons x rest ih =>
    rw [questNameLoop]
    cases i with
    | zero =>
      have hx : x = info := by simpa using hi
      rw [hx, if_pos hname]
    | succ q =>
      have hx : x.mQuestStatus ≠ QuestStatus.QS_Name := hfirst 0 x (Nat.succ_pos q) (by simp)
      rw [if_neg hx]
      apply ih q (by simpa using hi)
      intro j other hj hget
      exact hfirst (j + 1) other (by omega) (by simpa using hget)

/-- The search loop of `questName` returns nothing when no info has status `QS_Name`. -/
theorem questNameLoop_none (infos : List DialInfo)
    (h : ∀ info ∈ infos, info.mQuestStatus ≠ QuestStatus.QS_Name) :
    questNameLoop infos = none := by
  induction infos with
  | nil => rfl
  | cons x rest ih =>
    rw [questNameLoop, if_neg (h x (List.mem_cons_self x rest))]
    exact ih (fun info hm => h info (List.mem_cons_of_mem x hm))

/-- C9: `questName` is absent when the record's type is not `Journal`; when the type is
`Journal` it is the response of the first info, in list order, whose quest status is
`QS_Name`, and it is absent when no info of the record has that status. -/
theorem questName_spec (rec : Dialogue) :
    (rec.mType ≠ DialogueType.Journal → questName rec = none) ∧
    (rec.mType = DialogueType.Journal →
      ∀ (i : Nat) (info : DialInfo), rec.mInfo[i]? = some info →
        info.mQuestStatus = QuestStatus.QS_Name →
        (∀ (j : Nat) (other : DialInfo), j < i → rec.mInfo[j]? = some other →
          other.mQuestStatus ≠ QuestStatus.QS_Name) →
        questName rec = some info.mResponse) ∧
    (rec.mType = DialogueType.Journal →
      (∀ info ∈ rec.mInfo, info.mQuestStatus ≠ QuestStatus.QS_Name) →
      questName rec = none) := by
  refine ⟨fun h => ?_, fun h i info hi hname hfirst => ?_, fun h hnone => ?_⟩
  · rw [questName, if_pos h]
  · rw [questName, if_neg (not_not.mpr h)]
    exact questNameLoop_first rec.mInfo i info hi hname hfirst
  · rw [questName, if_neg (not_not.mpr h)]
    exact questNameLoop_none rec.mInfo hnone

/-- C10: for an info whose data type is `Journal`, the four quest fields are present and
the ten filter fields and `sound` are absent; for an info whose data type is not
`Journal`, the four quest fields are absent. -/
theorem quest_and_filter_fields_exclusive (correctSoundPath : String → String)
    (rec : DialInfo) :
    (rec.mData.mType = DialogueType.Journal →
      (rec.questStage.isSome = true ∧ rec.isQuestFinished.isSome = true ∧
        rec.isQuestRestart.isSome = true ∧ rec.isQuestName.isSome = true) ∧
      (rec.filterActorId = none ∧ rec.filterActorRace = none ∧ rec.filterActorClass = none ∧
        rec.filterActorFaction = none ∧ rec.filterActorFactionRank = none ∧
        rec.filterActorCell = none ∧ rec.filterActorDisposition = none ∧
        rec.filterActorGender = none ∧ rec.filterPlayerFaction = none ∧
        rec.filterPlayerFactionRank = none ∧ rec.sound correctSoundPath = none)) ∧
    (rec.mData.mType ≠ DialogueType.Journal →
      rec.questStage = none ∧ rec.isQuestFinished = none ∧ rec.isQuestRestart = none ∧
        rec.isQuestName = none) := by
  constructor
  · intro h
    simp [DialInfo.questStage, DialInfo.isQuestFinished, DialInfo.isQuestRestart,
      DialInfo.isQuestName, DialInfo.filterActorId, DialInfo.filterActorRace,
      DialInfo.filterActorClass, DialInfo.filterActorFaction, DialInfo.filterActorFactionRank,
      DialInfo.filterActorCell, DialInfo.filterActorDisposition, DialInfo.filterActorGender,
      DialInfo.filterPlayerFaction, DialInfo.filterPlayerFactionRank, DialInfo.sound, h]
  · intro h
    simp [DialInfo.questStage, DialInfo.isQuestFinished, DialInfo.isQuestRestart,
      DialInfo.isQuestName, h]

/-- C9 at `sampleJournal`, whose first info with status `QS_Name` is the second one. -/
theorem questName_spec_witness : questName sampleJournal = some "The Quest" :=
  (questName_spec sampleJournal).2.1 rfl 1
    (sampleInfo DialogueType.Journal QuestStatus.QS_Name "The Quest") rfl rfl
    (fun j other hj hget => by
      match j, hj with
      | 0, _ =>
        simp only [sampleJournal, List.getElem?_cons_zero, Option.some.injEq] at hget
        subst hget
        simp [sampleInfo])

/-- C10 at a journal info and at a topic info. -/
theorem quest_and_filter_fields_exclusive_witness :
    ((sampleInfo DialogueType.Journal QuestStatus.QS_None "text").questStage.isSome = true ∧
      (sampleInfo DialogueType.Journal QuestStatus.QS_None "text").filterActorDisposition
        = none) ∧
    (sampleInfo DialogueType.Topic QuestStatus.QS_None "text").questStage = none :=
  ⟨⟨((quest_and_filter_fields_exclusive id
        (sampleInfo DialogueType.Journal QuestStatus.QS_None "text")).1 rfl).1.1,
    ((quest_and_filter_fields_exclusive id
        (sampleInfo DialogueType.Journal QuestStatus.QS_None "text")).1 rfl).2.2.2.2.2.2.2.1⟩,
   ((quest_and_filter_fields_exclusive id
        (sampleInfo DialogueType.Topic QuestStatus.QS_None "text")).2 (by simp [sampleInfo])).1⟩

/-- C11: for an info whose data type is not `Journal`, each of `filterActorFactionRank`,
`filterActorGender` and `filterPlayerFactionRank` is absent exactly when the stored rank,
gender or player rank is `-1` and otherwise is the stored value, and
`filterActorDisposition` is always the stored disposition. -/
theorem rank_gender_disposition_filters (rec : DialInfo)
    (h : rec.mData.mType ≠ DialogueType.Journal) :
    ((rec.filterActorFactionRank = none ↔ rec.mData.mRank = -1) ∧
      (rec.mData.mRank ≠ -1 → rec.filterActorFactionRank = some rec.mData.mRank)) ∧
    ((rec.filterActorGender = none ↔ rec.mData.mGender = -1) ∧
      (rec.mData.mGender ≠ -1 → rec.filterActorGender = some rec.mData.mGender)) ∧
    ((rec.filterPlayerFactionRank = none ↔ rec.mData.mPCrank = -1) ∧
      (rec.mData.mPCrank ≠ -1 → rec.filterPlayerFactionRank = some rec.mData.mPCrank)) ∧
    rec.filterActorDisposition = some rec.mData.mDisposition := by
  refine ⟨⟨?_, ?_⟩, ⟨?_, ?_⟩, ⟨?_, ?_⟩, ?_⟩
  · by_cases hr : rec.mData.mRank = -1 <;> simp [DialInfo.filterActorFactionRank, h, hr]
  · intro hr
    simp [DialInfo.filterActorFactionRank, h, hr]
  · by_cases hr : rec.mData.mGender = -1 <;> simp [DialInfo.filterActorGender, h, hr]
  · intro hr
    simp [DialInfo.filterActorGender, h, hr]
  · by_cases hr : rec.mData.mPCrank = -1 <;> simp [DialInfo.filterPlayerFactionRank, h, hr]
  · intro hr
    simp [DialInfo.filterPlayerFactionRank, h, hr]
  · simp [DialInfo.filterActorDisposition, h]

/-- C11 at a topic info with disposition `-5`, rank `3`, gender `-1` and player rank
`0`. -/
theorem rank_gender_disposition_filters_witness :
    (sampleRankInfo (-5) 3 (-1) 0).filterActorFactionRank = some 3 ∧
    (sampleRankInfo (-5) 3 (-1) 0).filterActorGender = none ∧
    (sampleRankInfo (-5) 3 (-1) 0).filterPlayerFactionRank = some 0 ∧
    (sampleRankInfo (-5) 3 (-1) 0).filterActorDisposition = some (-5) :=
  have h := rank_gender_disposition_filters (sampleRankInfo (-5) 3 (-1) 0)
    (by simp [sampleRankInfo])
  ⟨h.1.2 (by simp [sampleRankInfo]), h.2.1.1.mpr rfl, h.2.2.1.2 (by simp [sampleRankInfo]),
    h.2.2.2⟩

/-- C12: on a store whose size fits the signed `difference_type`, `getSize()` is the
length of the plain filter of the underlying list, and for every key `k` with
`1 ≤ k ≤ getSize()` the index operation returns the `k`-th record of that filter. -/
theorem filtered_store_refines_filter (filter : DialogueType) (store : Store)
    (hlen : store.records.length < 2 ^ 63) :
    FilteredDialogueStore.getSize filter store = (filteredRecords filter store).length ∧
    ∀ k, 1 ≤ k → k ≤ FilteredDialogueStore.getSize filter store →
      ∃ d, (filteredRecords filter store)[k - 1]? = some d ∧
        FilteredDialogueStore.index filter store k = some d := by
  have hsize : FilteredDialogueStore.getSize filter store
      = (filteredRecords filter store).length := by
    unfold FilteredDialogueStore.getSize filteredRecords
    rw [List.countP_eq_length_filter]
  refine ⟨hsize, fun k h1 h2 => ?_⟩
  have hle : (filteredRecords filter store).length ≤ store.records.length :=
    List.length_filter_le _ _
  have hk : k - 1 < (filteredRecords filter store).length := by omega
  refine ⟨(filteredRecords filter store)[k - 1], List.getElem?_eq_getElem hk, ?_⟩
  have hd : toDifferenceType (k - 1) = ((k - 1 : Nat) : Int) := by
    unfold toDifferenceType
    have : (k - 1) % 2 ^ 64 = k - 1 := Nat.mod_eq_of_lt (by omega)
    rw [this, if_pos (by omega)]
  unfold FilteredDialogueStore.index
  rw [if_neg (by omega), FilteredDialogueStore.at_eq, hd, Int.toNat_ofNat]
  exact List.getElem?_eq_getElem hk

/-- C12 at the store holding a journal, a topic, a journal and a second topic record: the
size for topics is 2 and the key 2 gives the second topic record. -/
theorem filtered_store_refines_filter_witness :
    FilteredDialogueStore.getSize DialogueType.Topic sampleMixedStore = 2 ∧
    ∃ d, (filteredRecords DialogueType.Topic sampleMixedStore)[2 - 1]? = some d ∧
      FilteredDialogueStore.index DialogueType.Topic sampleMixedStore 2 = some d :=
  ⟨by decide,
    (filtered_store_refines_filter DialogueType.Topic sampleMixedStore (by decide)).2 2
      (by decide) (by decide)⟩

/-- C13, as stated, fails: for a topic info whose factionless flag is set and whose
faction id is empty, `filterActorFaction` is absent, not the empty string. -/
theorem filterActorFaction_absent_for_empty_faction :
    (sampleFactionInfo { empty := true, serializeText := "" } true).mData.mType
      ≠ DialogueType.Journal ∧
    (sampleFactionInfo { empty := true, serializeText := "" } true).mFactionLess = true ∧
    (sampleFactionInfo { empty := true, serializeText := "" } true).filterActorFaction = none ∧
    (sampleFactionInfo { empty := true, serializeText := "" } true).filterActorFaction
      ≠ some "" := by
  simp [sampleFactionInfo, sampleInfo, DialInfo.filterActorFaction]

/-- C13, amended: for an info whose data type is not `Journal`, whose faction id is not
empty and whose factionless flag is set, `filterActorFaction` is present and is the empty
string. -/
theorem filterActorFaction_factionless (rec : DialInfo)
    (htype : rec.mData.mType ≠ DialogueType.Journal) (hfaction : rec.mFaction.empty = false)
    (hflag : rec.mFactionLess = true) :
    rec.filterActorFaction = some "" := by
  simp [DialInfo.filterActorFaction, htype, hfaction, hflag]

/-- The amended C13 at a topic info with the faction id `FFFF` and the flag set. -/
theorem filterActorFaction_factionless_witness :
    (sampleFactionInfo { empty := false, serializeText := "FFFF" } true).filterActorFaction
      = some "" :=
  filterActorFaction_factionless
    (sampleFactionInfo { empty := false, serializeText := "FFFF" } true)
    (by simp [sampleFactionInfo, sampleInfo]) rfl rfl

/-! ## Theorems: actor skeleton and suffix insertion, relations -/

/-- C14: when path equality is reflexive, every third-person non-werewolf skeleton is a
default skeleton. -/
theorem third_person_skeleton_is_default (pathEqual : String → String → Bool)
    (hrefl : ∀ p, pathEqual p p = true) (models : ModelsSettings) (isFemale isBeast : Bool) :
    isDefaultActorSkeleton pathEqual models
      (getActorSkeleton models false isFemale isBeast false) = true := by
  cases isBeast <;> cases isFemale <;>
    simp [getActorSkeleton, isDefaultActorSkeleton, hrefl]

/-- C14 with exact string equality as the path equality, at a female non-beast actor. -/
theorem third_person_skeleton_is_default_witness :
    isDefaultActorSkeleton (fun a b => decide (a = b)) sampleModels
      (getActorSkeleton sampleModels false true false false) = true :=
  third_person_skeleton_is_default (fun a b => decide (a = b)) (fun _ => decide_eq_true rfl)
    sampleModels true false

/-- C15: on a filename containing `.`, inserting `s1` and then `s2` gives the same result
as inserting `s1` followed by `s2`. -/
theorem addSuffixBeforeExtension_compose (filename s1 s2 : List Char)
    (h : '.' ∈ filename) :
    addSuffixBeforeExtension (addSuffixBeforeExtension filename s1) s2
      = addSuffixBeforeExtension filename (s1 ++ s2) := by
  cases hr : rfind filename '.' with
  | none => exact absurd h ((rfind_eq_none_iff filename '.').mp hr)
  | some dotPos =>
    obtain ⟨hd, ht, _⟩ := rfind_eq_some filename '.' dotPos hr
    have hfirst : addSuffixBeforeExtension filename s1
        = (filename.take dotPos ++ s1) ++ '.' :: filename.drop (dotPos + 1) := by
      simp only [addSuffixBeforeExtension, hr, hd]
    have hfind : rfind (addSuffixBeforeExtension filename s1) '.'
        = some (filename.take dotPos ++ s1).length := by
      rw [hfirst]
      exact rfind_append_cons _ _ '.' ht
    have hsecond : addSuffixBeforeExtension (addSuffixBeforeExtension filename s1) s2
        = (filename.take dotPos ++ s1) ++ s2 ++ '.' :: filename.drop (dotPos + 1) := by
      rw [addSuffixBeforeExtension, hfind]
      simp only []
      rw [hfirst, List.take_left, List.drop_left]
    rw [hsecond]
    simp only [addSuffixBeforeExtension, hr, hd, List.append_assoc]

/-- C15 at the filename `a.b` with the suffixes `.x` and `_y`. -/
theorem addSuffixBeforeExtension_compose_witness :
    addSuffixBeforeExtension (addSuffixBeforeExtension ['a', '.', 'b'] ['.', 'x']) ['_', 'y']
      = addSuffixBeforeExtension ['a', '.', 'b'] ['.', 'x', '_', 'y'] :=
  addSuffixBeforeExtension_compose ['a', '.', 'b'] ['.', 'x'] ['_', 'y'] (by decide)

end OpenMW
